import Mathlib

set_option maxHeartbeats 1000000

/-!
Verification of the peripheral-model builder and code emitter of
`svd_parser.py`.  The Python functions are shallowly embedded: pure
functions become Lean functions, the XML nodes become structures carrying
the text the code reads, Python strings become `String`/`List Char`, and
the program's single possibly-diverging loop (`process_description`)
becomes a fuel-indexed function returning `Option`.
-/

namespace Svd

/-- Access mode; the Python dicts store the strings "RW", "RO", "WO". -/
inductive Access where
  | RW
  | RO
  | WO
  deriving DecidableEq

/-- The string the Python code stores for an access mode. -/
def Access.toStr : Access → String
  | .RW => "RW"
  | .RO => "RO"
  | .WO => "WO"

/-- One synthesized enumerated value (`process_values`, lines 33-40). -/
structure EnumValue where
  name : String
  description : String
  value : Nat
  deriving DecidableEq

/-- One field dict as built by `process_fields` (line 54). -/
structure Field where
  name : String
  description : String
  offset : Nat
  width : Nat
  access : Access
  values : List EnumValue
  deriving DecidableEq

/-- One register dict as built by `process_registers` (line 69);
`offset` is stored as a string there ('0' or '0xNN'). -/
structure Register where
  name : String
  description : String
  offset : String
  width : Nat
  length : Nat
  access : Access
  fields : List Field
  deriving DecidableEq

/-- One `{'name': ..., 'address': ...}` dict (line 408). -/
structure Instance where
  name : String
  address : String
  deriving DecidableEq

/-- A pre-normalization peripheral record (line 424). -/
structure RawPeripheral where
  group : String
  derived : List Instance
  description : String
  registers : List Register
  deriving DecidableEq

/-- Address part of a normalized peripheral: a singleton keeps one
`address` string (line 439), a family keeps the sorted `derived`
instance list (line 442). -/
inductive PAddr where
  | single (address : String)
  | multi (derived : List Instance)
  deriving DecidableEq

/-- A normalized peripheral dict (lines 439 and 442). -/
structure Peripheral where
  name : String
  description : String
  addr : PAddr
  registers : List Register
  deriving DecidableEq

/-! ### `process_description` (lines 17-30)

The Python loop repeatedly finds the first newline, scans for the first
non-space character after it, and splices the string.  It diverges on
some inputs, so the embedding carries fuel: `none` means the loop is
still running after `fuel` iterations. -/

/-- Index of the first newline: `description.find('\n')` (line 19). -/
def find_newline : List Char → Option Nat
  | [] => none
  | c :: rest => if c = '\n' then some 0 else (find_newline rest).map (· + 1)

/-- Index of the first non-space character of a list, if any. -/
def findIdx_nonspace : List Char → Option Nat
  | [] => none
  | c :: rest => if c = ' ' then (findIdx_nonspace rest).map (· + 1) else some 0

/-- The `end` computed by the scan loop (lines 21-25): the first index
`i > begin` with `s[i] != ' '`, or `begin` when every later character is
a space (also when there is none). -/
def scan_end (s : List Char) (b : Nat) : Nat :=
  match findIdx_nonspace (s.drop (b + 1)) with
  | some k => b + 1 + k
  | none => b

/-- Python `s[j:]` for an integer `j ≥ -len s`: a negative index counts
from the end (line 26 reaches `j = -1` when `end = 0`). -/
def pySliceFrom (s : List Char) (j : Int) : List Char :=
  if 0 ≤ j then s.drop j.toNat else s.drop (s.length - (-j).toNat)

/-- One iteration of the `while True` body (lines 19-29): `none` when
the loop breaks (no newline), otherwise the respliced string
`description[:begin] + description[end - 1:]`. -/
def descStep (s : List Char) : Option (List Char) :=
  match find_newline s with
  | none => none
  | some b =>
    let e := scan_end s b
    some (s.take b ++ pySliceFrom s ((e : Int) - 1))

/-- `process_description` with fuel: `some` is the returned string,
`none` means the loop has not terminated within `fuel` iterations. -/
def process_description (fuel : Nat) (s : List Char) : Option (List Char) :=
  match descStep s with
  | none => some s
  | some t =>
    match fuel with
    | 0 => none
    | f + 1 => process_description f t

/-- Python `str.capitalize()`: first character uppercased, the rest
lowercased (used on every description, lines 48, 63, 420). -/
def pyCapitalize (s : String) : String :=
  match s.toList with
  | [] => ""
  | c :: rest => String.mk (c.toUpper :: rest.map Char.toLower)

/-- Python `str.upper()`, character by character (ASCII names). -/
def pyUpper (s : String) : String :=
  String.mk (s.toList.map Char.toUpper)

/-- Python `s[n:]` for a non-negative index on a string. -/
def pyDrop (s : String) (n : Nat) : String :=
  String.mk (s.toList.drop n)

/-! ### `process_values` (lines 33-40) -/

/-- Translation of `process_values`: for `width < 4` synthesize
`int(pow(2, width))` = `2 ^ width` placeholder values. -/
def process_values (width : Nat) : List EnumValue :=
  if width < 4 then
    (List.range (2 ^ width)).map (fun i =>
      { name := "Value" ++ toString i
        description := "Some description of Value" ++ toString i
        value := i })
  else []

/-- The access-mode conditional expression appearing verbatim at lines
51 and 67: `'RW' if access is None or text == 'read-write' else 'RO' if
text == "read-only" else 'WO'`. -/
def py_access (access : Option String) : Access :=
  if access.isNone || access == some "read-write" then .RW
  else if access == some "read-only" then .RO
  else .WO

/-! ### Python string comparison

`sorted(..., key=lambda item: item['address'])` (line 441) compares the
address *strings* with Python's `<`, which is lexicographic on code
points.  We embed that comparison directly. -/

/-- Python's `<` on strings: lexicographic comparison of code points. -/
def pyStrLt : List Char → List Char → Bool
  | [], [] => false
  | [], _ :: _ => true
  | _ :: _, [] => false
  | a :: x, b :: y =>
    if a.toNat < b.toNat then true
    else if b.toNat < a.toNat then false
    else pyStrLt x y

/-- The non-strict order Python's stable ascending sort realises:
`a` may precede `b` iff `not (key(b) < key(a))`. -/
def instance_le (a b : Instance) : Prop :=
  pyStrLt b.address.toList a.address.toList = false

instance : DecidableRel instance_le := fun a b =>
  inferInstanceAs (Decidable (pyStrLt b.address.toList a.address.toList = false))

/-- Non-strict string order used to phrase the ordering law. -/
def str_le (a b : String) : Prop := pyStrLt b.toList a.toList = false

/-- `sorted(peripheral['derived'], key=lambda item: item['address'])`
(line 441): a stable ascending sort by the address string. -/
def sorted_by_address (l : List Instance) : List Instance :=
  List.insertionSort instance_le l

/-! ### `process_fields` / `process_registers` (lines 43-70) -/

/-- A field node: the elements/attribute texts the code reads. -/
structure FieldNode where
  name : String
  description : String
  bitOffset : Nat
  bitWidth : Nat
  access : Option String

/-- A register node.  `addressOffset` and `size` carry the value of
`int(text, 16)`; `arrayLen` is `attrib['array']` when present. -/
structure RegisterNode where
  name : String
  description : String
  addressOffset : Nat
  size : Nat
  arrayLen : Option Nat
  access : Option String
  fields : Option (List FieldNode)

/-- A peripheral node (lines 404-422). -/
structure PeripheralNode where
  derivedFrom : Option String
  name : String
  baseAddress : String
  groupName : String
  description : String
  registers : Option (List RegisterNode)

/-- Hex digit character, uppercase. -/
def hexChar (n : Nat) : Char :=
  if n < 10 then Char.ofNat (48 + n) else Char.ofNat (55 + n)

/-- Uppercase hexadecimal digits of `v`, most significant first. -/
def natToHexList (v : Nat) : List Char :=
  if _h : v < 16 then [hexChar v]
  else natToHexList (v / 16) ++ [hexChar (v % 16)]
termination_by v
decreasing_by
  exact Nat.div_lt_self (by omega) (by omega)

/-- Python `f'{v:02X}'`: uppercase hex, zero-padded to two digits. -/
def pyHex02X (v : Nat) : String :=
  let l := natToHexList v
  String.mk (if l.length < 2 then '0' :: l else l)

/-- The register offset string of line 64:
`'0' if v == 0 else f'0x{v:02X}'`. -/
def format_offset (v : Nat) : String :=
  if v = 0 then "0" else "0x" ++ pyHex02X v

/-- Loop body of `process_fields` (lines 46-54).  Fuel feeds the
description reflow; `none` propagates its divergence. -/
def process_fields_loop (fuel : Nat) (register : String) :
    List FieldNode → Option (List Field)
  | [] => some []
  | n :: rest =>
    match process_description fuel (pyCapitalize n.description).toList with
    | none => none
    | some d =>
      let f : Field :=
        { name := pyUpper n.name
          description := String.mk d
          offset := n.bitOffset
          width := n.bitWidth
          access := py_access n.access
          values := process_values n.bitWidth }
      match process_fields_loop fuel register rest with
      | none => none
      | some fs => some (if register = f.name then fs else f :: fs)

/-- `process_fields` (lines 43-55): an absent `fields` container yields
an empty list. -/
def process_fields (fuel : Nat) (register : String) :
    Option (List FieldNode) → Option (List Field)
  | none => some []
  | some l => process_fields_loop fuel register l

/-- Loop body of `process_registers` (lines 60-69). -/
def process_registers_loop (fuel : Nat) :
    List RegisterNode → Option (List Register)
  | [] => some []
  | n :: rest =>
    match process_description fuel (pyCapitalize n.description).toList with
    | none => none
    | some d =>
      match process_fields fuel (pyUpper n.name) n.fields with
      | none => none
      | some fs =>
        let r : Register :=
          { name := pyUpper n.name
            description := String.mk d
            offset := format_offset n.addressOffset
            width := n.size
            length := match n.arrayLen with | none => 0 | some k => k
            access := py_access n.access
            fields := fs }
        match process_registers_loop fuel rest with
        | none => none
        | some rs => some (r :: rs)

/-- `process_registers` (lines 58-70). -/
def process_registers (fuel : Nat) :
    Option (List RegisterNode) → Option (List Register)
  | none => some []
  | some l => process_registers_loop fuel l

/-! ### `get_peripherals` (lines 401-444) -/

/-- Inner loop of `get_derived_index`: does any instance carry the
referenced name? -/
def name_in_instances (derived : String) : List Instance → Bool
  | [] => false
  | a :: rest => derived = a.name || name_in_instances derived rest

/-- `get_derived_index` (lines 8-14): index of the first already
extracted peripheral owning an instance named `derived`; `None` when
the reference is unknown. -/
def get_derived_index (derived : String) : List RawPeripheral → Option Nat
  | [] => none
  | p :: ps =>
    if name_in_instances derived p.derived then some 0
    else (get_derived_index derived ps).map (· + 1)

/-- The ways a run of the script can fail to return a value:
an uncaught `TypeError` (e.g. `peripherals[None]`), or — for the
spec's vocabulary — an `UnresolvedReferenceError`, which the source
never defines nor raises. -/
inductive PyErr where
  | typeError
  | unresolvedReferenceError
  deriving DecidableEq

/-- Result of a fuelled, fallible computation: `none` = still running
(description reflow divergence), `some (.error e)` = uncaught
exception, `some (.ok x)` = returned value. -/
abbrev PyM (α : Type) := Option (Except PyErr α)

/-- The else branch of the extraction loop (lines 418-422): extract a
fresh peripheral record from a node, reflowing its description and
processing its registers.  `none` propagates description-reflow
divergence. -/
def extract_node (fuel : Nat) (node : PeripheralNode)
    (addresses : Instance) : Option RawPeripheral :=
  match process_description fuel (pyCapitalize node.description).toList with
  | none => none
  | some desc =>
    match process_registers fuel node.registers with
    | none => none
    | some regs =>
      some { group := pyUpper node.groupName
             derived := [addresses]
             description := String.mk desc
             registers := regs }

/-- Extraction loop of `get_peripherals` (lines 404-424).  Line 413's
`if derived:` is a Python *truthiness* test: both an absent
`derivedFrom` attribute (`derived = None`) and an empty one
(`derived = ''`) are falsy and make the node extract normally; only a
non-empty reference takes the derived branch, appending its
`{name, address}` pair to the peripheral found by `get_derived_index` —
and when that index is `None`, `peripherals[i]` raises `TypeError`. -/
def extract_loop (fuel : Nat) :
    List PeripheralNode → List RawPeripheral → PyM (List RawPeripheral)
  | [], acc => some (.ok acc)
  | node :: rest, acc =>
    let addresses : Instance :=
      { name := pyUpper node.name
        address := "0x" ++ pyDrop (pyUpper node.baseAddress) 2 }
    match node.derivedFrom with
    | some d =>
      if pyUpper d = "" then
        match extract_node fuel node addresses with
        | none => none
        | some q => extract_loop fuel rest (acc ++ [q])
      else
        match get_derived_index (pyUpper d) acc with
        | none => some (.error .typeError)
        | some i =>
          match acc.get? i with
          | none => some (.error .typeError)
          | some p =>
            extract_loop fuel rest
              (acc.set i { p with derived := p.derived ++ [addresses] })
    | none =>
      match extract_node fuel node addresses with
      | none => none
      | some q => extract_loop fuel rest (acc ++ [q])

/-- Inner loop of the include filter (lines 429-432): first peripheral
whose group tag equals the entry (`break` after the first match). -/
def find_first_group (inc : String) : List RawPeripheral → Option RawPeripheral
  | [] => none
  | p :: ps => if inc = p.group then some p else find_first_group inc ps

/-- Outer loop of the include filter (lines 428-432): one pass over the
peripherals per filter entry, in filter order. -/
def filter_loop (includes : List String) (ps : List RawPeripheral) :
    List RawPeripheral :=
  match includes with
  | [] => []
  | inc :: rest =>
    (match find_first_group inc ps with
     | some p => [p]
     | none => []) ++ filter_loop rest ps

/-- The `if includes:` block (lines 427-434); an empty (or absent)
filter list is falsy and leaves the list unchanged. -/
def apply_includes (includes : List String) (ps : List RawPeripheral) :
    List RawPeripheral :=
  if includes.isEmpty then ps else filter_loop includes ps

/-- One iteration of the normalization loop (lines 436-443): a single
instance becomes a singleton carrying its address, several instances
keep the list sorted by address string; the canonical name is the group
tag in both branches. -/
def normalize_one (p : RawPeripheral) : Peripheral :=
  match p.derived with
  | [a] =>
    { name := p.group
      description := p.description
      addr := .single a.address
      registers := p.registers }
  | l =>
    { name := p.group
      description := p.description
      addr := .multi (sorted_by_address l)
      registers := p.registers }

/-- The normalization loop (lines 436-444). -/
def normalize_peripherals (ps : List RawPeripheral) : List Peripheral :=
  ps.map normalize_one

/-- `get_peripherals` (lines 401-444): extract, filter, normalize. -/
def get_peripherals (fuel : Nat) (nodes : List PeripheralNode)
    (includes : List String) : PyM (List Peripheral) :=
  match extract_loop fuel nodes [] with
  | none => none
  | some (.error e) => some (.error e)
  | some (.ok ps) =>
    some (.ok (normalize_peripherals (apply_includes includes ps)))

/-! ### `create_addresses_file`, default branch (lines 372-391)

The non-`SIMULATION` branch emits one `#define NAME_ADDRESS addr` line
per singleton peripheral and one per instance of a family, in instance
order. -/

/-- One line of the default address list (lines 376 and 379). -/
def address_define_line (name address : String) : String :=
  "#define " ++ name ++ "_ADDRESS " ++ address ++ "\n"

/-- The addresses that the default address list emits for one
peripheral, in emission order. -/
def peripheral_define_addresses (p : Peripheral) : List String :=
  match p.addr with
  | .single a => [a]
  | .multi l => l.map Instance.address

/-- The accumulated `address_list` text (lines 373-379). -/
def address_list (ps : List Peripheral) : String :=
  match ps with
  | [] => ""
  | p :: rest =>
    (match p.addr with
     | .single a => address_define_line p.name a
     | .multi l =>
       String.join (l.map (fun e => address_define_line e.name e.address))) ++
    address_list rest

/-! ### `create_base_files`, per-register emission (lines 73-82 and
119-151) -/

/-- `generate_names` (lines 73-82), applied to the element names: one
`static inline char ..._name[] = "...";` line per element, with the
trailing newline stripped (`text[:-1]`); empty input yields `''`. -/
def generate_names (peripheral : String) (names : List String) : String :=
  match names with
  | [] => ""
  | _ =>
    (String.join (names.map (fun name =>
      if peripheral = "" then
        "static inline char " ++ name.toLower ++ "_name[] = \"" ++
          name ++ "\";\n"
      else
        "static inline char " ++ name.toLower ++ "_name[] = \"" ++
          peripheral ++ "::" ++ name ++ "\";\n"))).dropRight 1

/-- The single-alias emission for a scalar register (line 132). -/
def register_alias_text (r : Register) : String :=
  "using " ++ r.name ++ " = RegisterBase<" ++ r.name.toLower ++
    "_address, " ++ toString r.width ++ ", " ++ toString r.length ++
    ", " ++ r.access.toStr ++ ", Target, STM32F4xxx, " ++
    r.name.toLower ++ "_name>;\t// " ++ r.description ++ "\n"

/-- One per-field alias line inside the container class (line 141). -/
def field_using_line (r : Register) (f : Field) : String :=
  "using " ++ f.name ++ " = " ++ r.name ++ "_" ++ f.name ++ "<" ++
    r.name ++ ", " ++ toString f.offset ++ ", " ++ toString f.width ++
    ", " ++ f.access.toStr ++ ", Target, STM32F4xxx, " ++
    f.name.toLower ++ "_name>;\t// " ++ f.description ++ "\n"

/-- The field-accessor container emission (lines 135-151). -/
def register_container_text (r : Register) : String :=
  "// " ++ r.description ++ "\n" ++
  "class " ++ r.name ++ ": public RegisterBase<" ++ r.name.toLower ++
    "_address, " ++ toString r.width ++ ", " ++ toString r.length ++
    ", " ++ r.access.toStr ++ ", Target, STM32F4xxx, " ++
    r.name.toLower ++ "_name>\n" ++
  "\x7b\n" ++
  generate_names "" (r.fields.map Field.name) ++ "\n" ++
  "public:\n" ++
  String.join (r.fields.map (field_using_line r)) ++ "\n" ++
  "\x7d;\n"

/-- The branch condition of line 131: collapse to a single alias when
the field list is empty or the register width equals the width of
`fields[0]` (short-circuit `or`: the index is only taken when the list
is non-empty). -/
def scalar_collapses (r : Register) : Bool :=
  match r.fields with
  | [] => true
  | f :: _ => r.width = f.width

/-- Emission of one scalar (`length == 0`) register inside
`registers_str` (lines 129-151). -/
def scalar_register_text (r : Register) : String :=
  if scalar_collapses r then register_alias_text r
  else register_container_text r

/-- The `registers_str` accumulation (lines 126-151): array registers
contribute nothing here. -/
def registers_str (rs : List Register) : String :=
  String.join (rs.map (fun r =>
    if r.length = 0 then scalar_register_text r else ""))

/-! ### The interchange (cache) document (lines 485-491)

`json.dump(peripherals, ...)` / `json.load(file)` serialize the
normalized model, whose leaves are exactly strings and non-negative
integers, to a JSON document and back.  The document is modelled as a
JSON value; the text layer is the standard library's. -/

/-- A JSON value, restricted to the shapes the model produces. -/
inductive Json where
  | str (s : String)
  | num (n : Nat)
  | arr (items : List Json)
  | obj (members : List (String × Json))

/-- Key lookup in an object's member list (Python dict access). -/
def jlookup : List (String × Json) → String → Option Json
  | [], _ => none
  | (k, v) :: rest, key => if k = key then some v else jlookup rest key

/-- Member access on a value known to be an object. -/
def Json.get? : Json → String → Option Json
  | .obj members, key => jlookup members key
  | _, _ => none

/-- Read a JSON string. -/
def Json.asStr : Json → Option String
  | .str s => some s
  | _ => none

/-- Read a JSON number. -/
def Json.asNum : Json → Option Nat
  | .num n => some n
  | _ => none

/-- Read a JSON array. -/
def Json.asArr : Json → Option (List Json)
  | .arr items => some items
  | _ => none

/-- Decode every element of an array, failing if any element fails. -/
def decodeList (dec : Json → Option α) : List Json → Option (List α)
  | [] => some []
  | j :: rest =>
    match dec j, decodeList dec rest with
    | some a, some l => some (a :: l)
    | _, _ => none

/-- Serialization of one synthesized value, with the dict key order of
line 39. -/
def EnumValue.toJson (v : EnumValue) : Json :=
  .obj [("name", .str v.name), ("description", .str v.description),
        ("value", .num v.value)]

/-- Read one synthesized value back. -/
def EnumValue.fromJson (j : Json) : Option EnumValue := do
  let n ← (← j.get? "name").asStr
  let d ← (← j.get? "description").asStr
  let v ← (← j.get? "value").asNum
  some { name := n, description := d, value := v }

/-- Serialization of one field, with the dict key order of line 54. -/
def Field.toJson (f : Field) : Json :=
  .obj [("name", .str f.name), ("description", .str f.description),
        ("offset", .num f.offset), ("width", .num f.width),
        ("access", .str f.access.toStr),
        ("values", .arr (f.values.map EnumValue.toJson))]

/-- Read an access-mode string back. -/
def Access.fromStr (s : String) : Option Access :=
  if s = "RW" then some .RW
  else if s = "RO" then some .RO
  else if s = "WO" then some .WO
  else none

/-- Read one field back. -/
def Field.fromJson (j : Json) : Option Field := do
  let n ← (← j.get? "name").asStr
  let d ← (← j.get? "description").asStr
  let o ← (← j.get? "offset").asNum
  let w ← (← j.get? "width").asNum
  let a ← Access.fromStr (← (← j.get? "access").asStr)
  let vs ← decodeList EnumValue.fromJson (← (← j.get? "values").asArr)
  some { name := n, description := d, offset := o, width := w,
         access := a, values := vs }

/-- Serialization of one register, with the dict key order of line 69. -/
def Register.toJson (r : Register) : Json :=
  .obj [("name", .str r.name), ("description", .str r.description),
        ("offset", .str r.offset), ("width", .num r.width),
        ("length", .num r.length), ("access", .str r.access.toStr),
        ("fields", .arr (r.fields.map Field.toJson))]

/-- Read one register back. -/
def Register.fromJson (j : Json) : Option Register := do
  let n ← (← j.get? "name").asStr
  let d ← (← j.get? "description").asStr
  let o ← (← j.get? "offset").asStr
  let w ← (← j.get? "width").asNum
  let len ← (← j.get? "length").asNum
  let a ← Access.fromStr (← (← j.get? "access").asStr)
  let fs ← decodeList Field.fromJson (← (← j.get? "fields").asArr)
  some { name := n, description := d, offset := o, width := w,
         length := len, access := a, fields := fs }

/-- Serialization of one instance pair (line 408). -/
def Instance.toJson (i : Instance) : Json :=
  .obj [("name", .str i.name), ("address", .str i.address)]

/-- Read one instance pair back. -/
def Instance.fromJson (j : Json) : Option Instance := do
  let n ← (← j.get? "name").asStr
  let a ← (← j.get? "address").asStr
  some { name := n, address := a }

/-- Serialization of one normalized peripheral: the singleton dict of
line 439 carries an `address` member, the family dict of line 442 a
`derived` member. -/
def Peripheral.toJson (p : Peripheral) : Json :=
  match p.addr with
  | .single a =>
    .obj [("name", .str p.name), ("description", .str p.description),
          ("address", .str a),
          ("registers", .arr (p.registers.map Register.toJson))]
  | .multi l =>
    .obj [("name", .str p.name), ("description", .str p.description),
          ("derived", .arr (l.map Instance.toJson)),
          ("registers", .arr (p.registers.map Register.toJson))]

/-- Read one normalized peripheral back; `peripheral.get('address')`
(lines 283, 294, 340, 360, 375) distinguishes the two shapes by the
presence of the `address` key. -/
def Peripheral.fromJson (j : Json) : Option Peripheral := do
  let n ← (← j.get? "name").asStr
  let d ← (← j.get? "description").asStr
  let rs ← decodeList Register.fromJson (← (← j.get? "registers").asArr)
  match j.get? "address" with
  | some a => do
    let s ← a.asStr
    some { name := n, description := d, addr := .single s, registers := rs }
  | none => do
    let ds ← decodeList Instance.fromJson (← (← j.get? "derived").asArr)
    some { name := n, description := d, addr := .multi ds, registers := rs }

/-- `json.dump(peripherals, ...)` (line 487): the whole model as one
JSON array. -/
def model_toJson (ps : List Peripheral) : Json :=
  .arr (ps.map Peripheral.toJson)

/-- `json.load(file)` (line 491) read back into the model. -/
def model_fromJson (j : Json) : Option (List Peripheral) := do
  decodeList Peripheral.fromJson (← j.asArr)

/-! ### Definitions following the spec's words

For the claims that compare the code against the spec's phrasing, these
definitions state the spec side.  They are deliberately written from
the spec's sentences, not from the code. -/

/-- Spec side of C3: "read-only" maps to ReadOnly, "write-only" maps to
WriteOnly, and any other value — including an absent access element —
maps to ReadWrite. -/
def spec_access (a : Option String) : Access :=
  if a == some "read-only" then .RO
  else if a == some "write-only" then .WO
  else .RW

/-- Spec side of C6: a scalar register collapses to a single alias iff
it has zero fields or exactly one field spanning the full register
width. -/
def spec_collapses (r : Register) : Bool :=
  match r.fields with
  | [] => true
  | [f] => r.width = f.width
  | _ => false

/-- Spec side of C5: the fixed singleton-naming override set
("timer-class, Ethernet, USB-OTG-class peripherals"); the spec's
Scenario B names `TIM` as the timer-class group tag.  No such set
exists in the source. -/
def spec_override_groups : List String := ["TIM", "ETH", "OTG"]

/-- Spec side of C5: canonical name of a single-instance peripheral is
the instance name when the group belongs to the override set, otherwise
the group tag. -/
def spec_singleton_name (p : RawPeripheral) : String :=
  if p.group ∈ spec_override_groups then
    match p.derived with
    | [a] => a.name
    | _ => p.group
  else p.group

/-- Numeric value of a hexadecimal digit character. -/
def hexDigitVal (c : Char) : Nat :=
  if 48 ≤ c.toNat ∧ c.toNat ≤ 57 then c.toNat - 48
  else if 65 ≤ c.toNat ∧ c.toNat ≤ 70 then c.toNat - 55
  else if 97 ≤ c.toNat ∧ c.toNat ≤ 102 then c.toNat - 87
  else 0

/-- The claims' "numeric base address": the value of a '0x...' address
string. -/
def hexVal (s : String) : Nat :=
  (s.toList.drop 2).foldl (fun a c => 16 * a + hexDigitVal c) 0

/-- Spec side of C9: each line break together with its leading
indentation collapsed into a single space, the rest unchanged. -/
def collapse_spec (s : List Char) : List Char :=
  match s with
  | [] => []
  | c :: rest =>
    if c = '\n' then ' ' :: collapse_spec (rest.dropWhile (fun x => x = ' '))
    else c :: collapse_spec rest
termination_by s.length
decreasing_by
  · exact Nat.lt_succ_of_le (List.dropWhile_sublist _ |>.length_le)
  · exact Nat.lt_succ_of_le (Nat.le_refl _)

/-- Inputs on which `process_description` is well behaved: every line
break is immediately followed by at least one space, and some later
character after the break is not a space. -/
def goodDesc (s : List Char) : Bool :=
  match s with
  | [] => true
  | c :: rest =>
    if c = '\n' then
      if rest.head? = some ' ' then
        !(rest.dropWhile (fun x => x = ' ')).isEmpty &&
          goodDesc (rest.dropWhile (fun x => x = ' '))
      else false
    else goodDesc rest
termination_by s.length
decreasing_by
  · exact Nat.lt_succ_of_le (List.dropWhile_sublist _ |>.length_le)
  · exact Nat.lt_succ_of_le (Nat.le_refl _)

/-- The loop of `process_description` runs forever on `s`: no amount of
fuel makes it return. -/
def diverges (s : List Char) : Prop :=
  ∀ fuel, process_description fuel s = none

/-! ### Concrete inputs used by the counterexamples and witnesses -/

/-- Claim C1: instance extracted first, address string "0x9" (value 9). -/
def c1_t3 : Instance := { name := "TIM3", address := "0x9" }

/-- Claim C1: instance extracted second, address string "0x10" (value 16). -/
def c1_t2 : Instance := { name := "TIM2", address := "0x10" }

/-- Claim C1: a two-instance timer family. -/
def c1_raw : RawPeripheral :=
  { group := "TIM", derived := [c1_t3, c1_t2], description := "Timers",
    registers := [] }

/-- Claim C1: its normalization (instances sorted by address string). -/
def c1_norm : Peripheral :=
  { name := "TIM", description := "Timers",
    addr := .multi [c1_t2, c1_t3], registers := [] }

/-- Claim C2: a node carrying an *empty* `derivedFrom` attribute; line
413's truthiness test treats it like an absent one. -/
def c2e_node : PeripheralNode :=
  { derivedFrom := some "", name := "uart4",
    baseAddress := "0x40004C00", groupName := "UART", description := "U",
    registers := none }

/-- Claim C3: a field node with an unrecognised access string. -/
def c3_node : FieldNode :=
  { name := "f1", description := "Desc", bitOffset := 0, bitWidth := 1,
    access := some "foo" }

/-- Claim C3 witness: a write-only register node without fields. -/
def c3w_rnode : RegisterNode :=
  { name := "cr1", description := "Desc", addressOffset := 0, size := 32,
    arrayLen := none, access := some "write-only", fields := none }

/-- Claim C3 witness: a field node without an access element. -/
def c3w_fnode : FieldNode :=
  { name := "en", description := "Desc", bitOffset := 0, bitWidth := 5,
    access := none }

/-- Claim C4: first peripheral in schema order, group tag A. -/
def c4_pA : RawPeripheral :=
  { group := "A", derived := [{ name := "A1", address := "0x1" }],
    description := "", registers := [] }

/-- Claim C4: second peripheral in schema order, group tag B. -/
def c4_pB : RawPeripheral :=
  { group := "B", derived := [{ name := "B1", address := "0x2" }],
    description := "", registers := [] }

/-- Claim C5: a singleton timer whose instance name differs from the group. -/
def c5_raw : RawPeripheral :=
  { group := "TIM", derived := [{ name := "TIM2", address := "0x40000000" }],
    description := "", registers := [] }

/-- Claim C6: a full-width field listed first. -/
def c6_f8 : Field :=
  { name := "F8", description := "d", offset := 0, width := 8,
    access := .RW, values := [] }

/-- Claim C6: a second, narrow field. -/
def c6_f1 : Field :=
  { name := "F1", description := "d", offset := 4, width := 1,
    access := .RW, values := [] }

/-- Claim C6: a scalar register with two fields whose first spans the whole
register. -/
def c6_reg : Register :=
  { name := "CR", description := "d", offset := "0", width := 8,
    length := 0, access := .RW, fields := [c6_f8, c6_f1] }

/-- Claim C3 witness: the register extracted from `c3w_rnode`. -/
def c3w_reg : Register :=
  { name := "CR1", description := "Desc", offset := "0", width := 32,
    length := 0, access := .WO, fields := [] }

/-- Claim C3 witness: the field extracted from `c3w_fnode`. -/
def c3w_field : Field :=
  { name := "EN", description := "Desc", offset := 0, width := 5,
    access := .RW, values := [] }

/-! ## Helper lemmas -/

/-- The access conditional, rephrased by cases on the string. -/
theorem py_access_eq (a : Option String) :
    py_access a =
      (match a with
       | none => Access.RW
       | some s =>
         if s = "read-write" then Access.RW
         else if s = "read-only" then Access.RO
         else Access.WO) := by
  cases a with
  | none => rfl
  | some s =>
    by_cases h1 : s = "read-write"
    · subst h1; rfl
    · by_cases h2 : s = "read-only"
      · subst h2; rfl
      · simp [py_access, h1, h2]

/-- The include-filter loop is a `filterMap` over the filter entries. -/
theorem filter_loop_eq_filterMap (includes : List String)
    (ps : List RawPeripheral) :
    filter_loop includes ps =
      includes.filterMap (fun inc => find_first_group inc ps) := by
  induction includes with
  | nil => rfl
  | cons inc rest ih =>
    simp only [filter_loop, List.filterMap_cons, ih]
    cases find_first_group inc ps <;> simp

/-! ## Claim C7 -/

/-- Claim C7: for every field, the synthesized EnumValue list has length
2^width when width < 4 and length 0 otherwise; the values carry
ordinals 0..2^width-1 in order and the names Value0, Value1, .... -/
theorem c7_enum_synthesis (w : Nat) :
    (process_values w).length = (if w < 4 then 2 ^ w else 0) ∧
    (process_values w).map EnumValue.value =
      (if w < 4 then List.range (2 ^ w) else []) ∧
    (process_values w).map EnumValue.name =
      (if w < 4 then (List.range (2 ^ w)).map
        (fun i => "Value" ++ toString i) else []) := by
  unfold process_values
  split
  · refine ⟨by simp, ?_, ?_⟩
    · rw [List.map_map]
      exact List.map_id _
    · rw [List.map_map]
      rfl
  · simp

/-! ## Claim C5 -/

/-- Claim C5 counterexample: the code names the singleton timer peripheral by
its group tag TIM, while the spec's override rule demands the instance
name TIM2 (TIM is a timer-class group per the spec's Scenario B). -/
theorem c5_counterexample :
    (normalize_peripherals [c5_raw]).map Peripheral.name = ["TIM"] ∧
    spec_singleton_name c5_raw = "TIM2" ∧
    ("TIM" : String) ≠ "TIM2" :=
  ⟨rfl, rfl, by decide⟩

/-- Claim C5 (amended): the canonical generation name of every normalized
peripheral — in particular of every singleton — is the group tag; the
code has no override set. -/
theorem c5_singleton_name_is_group (ps : List RawPeripheral) :
    (normalize_peripherals ps).map Peripheral.name =
      ps.map RawPeripheral.group := by
  unfold normalize_peripherals
  rw [List.map_map]
  apply List.map_congr_left
  intro p _
  simp only [Function.comp]
  unfold normalize_one
  split <;> rfl

/-! ## Claim C4 -/

/-- Claim C4 counterexample: with schema order [A, B] and filter [B, A], the
retained peripherals come out in filter order B, A — not schema
order. -/
theorem c4_counterexample :
    (apply_includes ["B", "A"] [c4_pA, c4_pB]).map RawPeripheral.group =
      ["B", "A"] ∧
    (["B", "A"] : List String) ≠ ["A", "B"] :=
  ⟨rfl, by decide⟩

/-- Claim C4 (amended): for every non-empty filter list, the output is, in
filter order, the first schema-order peripheral whose group tag equals
each entry (entries without a match contribute nothing; at most one
peripheral is retained per entry). -/
theorem c4_filter_order (includes : List String) (ps : List RawPeripheral)
    (h : includes ≠ []) :
    apply_includes includes ps =
      includes.filterMap (fun inc => find_first_group inc ps) := by
  unfold apply_includes
  rw [if_neg (by simpa [List.isEmpty_iff] using h)]
  exact filter_loop_eq_filterMap includes ps

/-- Claim C4 witness: the amended statement at the counterexample input. -/
theorem c4_filter_order_witness :
    apply_includes ["B", "A"] [c4_pA, c4_pB] =
      (["B", "A"]).filterMap
        (fun inc => find_first_group inc [c4_pA, c4_pB]) :=
  c4_filter_order ["B", "A"] [c4_pA, c4_pB] (by decide)

/-! ## Claim C6 -/

/-- Claim C6 counterexample: a scalar register with two fields whose first
spans the full register width is emitted as a single alias by line 131,
although the spec's condition (zero fields or exactly one full-width
field) does not hold. -/
theorem c6_counterexample :
    scalar_collapses c6_reg = true ∧
    scalar_register_text c6_reg = register_alias_text c6_reg ∧
    c6_reg.fields.length = 2 ∧
    spec_collapses c6_reg = false :=
  ⟨rfl, rfl, rfl, rfl⟩

/-- Claim C6 (amended): a scalar register collapses to a single alias iff it
has zero fields or its width equals the width of its first field,
regardless of how many fields follow. -/
theorem c6_collapse_iff (r : Register) :
    scalar_collapses r = true ↔
      (r.fields = [] ∨
        ∃ f rest, r.fields = f :: rest ∧ r.width = f.width) := by
  obtain ⟨n, d, o, w, len, a, flds⟩ := r
  cases flds with
  | nil => simp [scalar_collapses]
  | cons f rest => simp [scalar_collapses]

/-! ## Claim C2 -/

/-- Line 413's truthiness: a node with an empty `derivedFrom` attribute
extracts normally (no derived branch, no error). -/
theorem empty_reference_extracts :
    get_peripherals 0 [c2e_node] [] =
      some (Except.ok
        [{ name := "UART"
           description := "U"
           addr := .single "0x40004C00"
           registers := [] }]) := rfl

/-- Claim C3 counterexample: an access string that is neither "read-only" nor
"write-only" nor "read-write" (here "foo") is classified WriteOnly by
lines 51/67, while the spec maps it to ReadWrite. -/
theorem c3_counterexample :
    (process_fields_loop 0 "CR" [c3_node]).map (List.map Field.access) =
      some [Access.WO] ∧
    spec_access (some "foo") = Access.RW ∧
    Access.WO ≠ Access.RW :=
  ⟨rfl, rfl, by decide⟩

/-- Claim C3 (amended): for register and field nodes alike, "read-only" maps
to ReadOnly, absence and "read-write" map to ReadWrite, and every other
access string maps to WriteOnly. -/
theorem c3_access_classification (fuel : Nat) (rn : RegisterNode)
    (fn : FieldNode) (reg : String) (regs : List Register)
    (fs : List Field)
    (hr : process_registers_loop fuel [rn] = some regs)
    (hf : process_fields_loop fuel reg [fn] = some fs) :
    (∀ r ∈ regs, r.access =
      (match rn.access with
       | none => Access.RW
       | some s =>
         if s = "read-write" then Access.RW
         else if s = "read-only" then Access.RO
         else Access.WO)) ∧
    (∀ f ∈ fs, f.access =
      (match fn.access with
       | none => Access.RW
       | some s =>
         if s = "read-write" then Access.RW
         else if s = "read-only" then Access.RO
         else Access.WO)) := by
  constructor
  · intro r hmem
    rw [← py_access_eq]
    simp only [process_registers_loop] at hr
    split at hr
    · exact absurd hr (by simp)
    · split at hr
      · exact absurd hr (by simp)
      · simp only [Option.some.injEq] at hr
        subst hr
        simp only [List.mem_singleton] at hmem
        subst hmem
        rfl
  · intro f hmem
    rw [← py_access_eq]
    simp only [process_fields_loop] at hf
    split at hf
    · exact absurd hf (by simp)
    · simp only [Option.some.injEq] at hf
      subst hf
      by_cases hdup : reg = pyUpper fn.name
      · simp [hdup] at hmem
      · simp [hdup] at hmem
        subst hmem
        rfl

/-- Claim C3 witness: the amended statement at a write-only register node and
an access-less field node. -/
theorem c3_access_classification_witness :
    (∀ r ∈ [c3w_reg], r.access = Access.WO) ∧
    (∀ f ∈ [c3w_field], f.access = Access.RW) :=
  c3_access_classification 0 c3w_rnode c3w_fnode "CR" [c3w_reg]
    [c3w_field] rfl rfl

/-! ## Claim C1 -/

/-- Python's string `<` is asymmetric. -/
theorem pyStrLt_asymm : ∀ (x y : List Char),
    pyStrLt x y = true → pyStrLt y x = false := by
  intro x
  induction x with
  | nil =>
    intro y h
    cases y with
    | nil => exact absurd h (by simp [pyStrLt])
    | cons b ys => rfl
  | cons a xs ih =>
    intro y h
    cases y with
    | nil => exact absurd h (by simp [pyStrLt])
    | cons b ys =>
      simp only [pyStrLt] at h ⊢
      by_cases h1 : a.toNat < b.toNat
      · rw [if_neg (by omega), if_pos h1]
      · by_cases h2 : b.toNat < a.toNat
        · rw [if_neg h1, if_pos h2] at h
          exact absurd h (by simp)
        · rw [if_neg h1, if_neg h2] at h
          rw [if_neg h2, if_neg h1]
          exact ih ys h

/-- Python's string `≤` (the negation of `<` the other way) is
transitive. -/
theorem pyStrLt_false_trans : ∀ (x y z : List Char),
    pyStrLt y x = false → pyStrLt z y = false → pyStrLt z x = false := by
  intro x
  induction x with
  | nil =>
    intro y z h1 h2
    cases z with
    | nil => rfl
    | cons c zs => rfl
  | cons a xs ih =>
    intro y z h1 h2
    cases y with
    | nil => exact absurd h1 (by simp [pyStrLt])
    | cons b ys =>
      cases z with
      | nil => exact absurd h2 (by simp [pyStrLt])
      | cons c zs =>
        simp only [pyStrLt] at h1 h2 ⊢
        by_cases hba : b.toNat < a.toNat
        · rw [if_pos hba] at h1
          exact absurd h1 (by simp)
        · by_cases hcb : c.toNat < b.toNat
          · rw [if_pos hcb] at h2
            exact absurd h2 (by simp)
          · by_cases hca : c.toNat < a.toNat
            · exact absurd hca (by omega)
            · by_cases hac : a.toNat < c.toNat
              · rw [if_neg hca, if_pos hac]
              · have hab : ¬ a.toNat < b.toNat := by omega
                have hbc : ¬ b.toNat < c.toNat := by omega
                rw [if_neg hba, if_neg hab] at h1
                rw [if_neg hcb, if_neg hbc] at h2
                rw [if_neg hca, if_neg hac]
                exact ih ys zs h1 h2

instance : IsTotal Instance instance_le :=
  ⟨fun a b => by
    unfold instance_le
    cases h : pyStrLt b.address.toList a.address.toList
    · exact Or.inl rfl
    · exact Or.inr (pyStrLt_asymm _ _ h)⟩

instance : IsTrans Instance instance_le :=
  ⟨fun _ _ _ h1 h2 => pyStrLt_false_trans _ _ _ h1 h2⟩

/-- The sort of line 441 is ascending in the string order. -/
theorem sorted_by_address_pairwise (l : List Instance) :
    List.Pairwise instance_le (sorted_by_address l) :=
  List.sorted_insertionSort instance_le l

/-- A `.multi` normalization result is the sorted instance list. -/
theorem normalize_one_multi (q : RawPeripheral) (insts : List Instance)
    (h : (normalize_one q).addr = .multi insts) :
    insts = sorted_by_address q.derived := by
  obtain ⟨g, der, desc, regs⟩ := q
  cases der with
  | nil =>
    simp only [normalize_one, PAddr.multi.injEq] at h
    exact h.symm
  | cons a rest =>
    cases rest with
    | nil => simp [normalize_one] at h
    | cons b rest2 =>
      simp only [normalize_one, PAddr.multi.injEq] at h
      exact h.symm

/-- Claim C1 counterexample: instances with address strings "0x9" (value 9,
extracted first) and "0x10" (value 16) are sorted by line 441 into
["0x10", "0x9"], so the emitted address list is numerically
decreasing. -/
theorem c1_counterexample :
    (normalize_peripherals [c1_raw]).map peripheral_define_addresses =
      [["0x10", "0x9"]] ∧
    hexVal "0x10" = 16 ∧ hexVal "0x9" = 9 ∧
    ¬ List.Chain' (fun a b : String => hexVal a ≤ hexVal b)
        ["0x10", "0x9"] := by
  refine ⟨rfl, rfl, rfl, fun hch => ?_⟩
  rw [List.chain'_cons] at hch
  rw [show hexVal "0x10" = 16 from rfl,
      show hexVal "0x9" = 9 from rfl] at hch
  omega

/-- Claim C1 (amended): for every multi-instance peripheral of the normalized
model, the instance list is sorted ascending in the lexicographic
(code-point) order of the base-address strings, and the emitted
per-instance address list is non-decreasing in that same string order;
this coincides with numeric order exactly when the address strings have
equal length. -/
theorem c1_sorted_lex (ps : List RawPeripheral) (p : Peripheral)
    (hp : p ∈ normalize_peripherals ps) (insts : List Instance)
    (ha : p.addr = .multi insts) :
    insts.Chain' (fun a b => str_le a.address b.address) ∧
    (peripheral_define_addresses p).Chain' str_le := by
  obtain ⟨q, hq, rfl⟩ := List.mem_map.1 hp
  have hi := normalize_one_multi q insts ha
  subst hi
  have hs := sorted_by_address_pairwise q.derived
  constructor
  · exact hs.chain'
  · simp only [peripheral_define_addresses, ha]
    rw [List.chain'_map]
    exact hs.chain'

/-- Claim C1 witness: the amended statement at the counterexample input. -/
theorem c1_sorted_lex_witness :
    List.Chain' (fun a b : Instance => str_le a.address b.address)
      [c1_t2, c1_t3] ∧
    (peripheral_define_addresses c1_norm).Chain' str_le :=
  c1_sorted_lex [c1_raw] c1_norm (by decide) [c1_t2, c1_t3] rfl

/-! ## Claim C8 -/

/-- Per-element decoding inverts per-element encoding. -/
theorem decodeList_map (dec : Json → Option α) (enc : α → Json)
    (h : ∀ a, dec (enc a) = some a) :
    ∀ l : List α, decodeList dec (l.map enc) = some l := by
  intro l
  induction l with
  | nil => rfl
  | cons a rest ih => simp [decodeList, h a, ih]

/-- The access string written to the document reads back. -/
theorem access_roundtrip (a : Access) : Access.fromStr a.toStr = some a := by
  cases a <;> rfl

/-- Round trip of one synthesized value. -/
theorem enumValue_roundtrip (v : EnumValue) :
    EnumValue.fromJson v.toJson = some v := rfl

/-- Round trip of one field. -/
theorem field_roundtrip (f : Field) : Field.fromJson f.toJson = some f := by
  simp [Field.fromJson, Field.toJson, Json.get?, jlookup, Json.asStr,
    Json.asNum, Json.asArr, access_roundtrip,
    decodeList_map EnumValue.fromJson EnumValue.toJson enumValue_roundtrip]

/-- Round trip of one register. -/
theorem register_roundtrip (r : Register) :
    Register.fromJson r.toJson = some r := by
  simp [Register.fromJson, Register.toJson, Json.get?, jlookup, Json.asStr,
    Json.asNum, Json.asArr, access_roundtrip,
    decodeList_map Field.fromJson Field.toJson field_roundtrip]

/-- Round trip of one instance pair. -/
theorem instance_roundtrip (i : Instance) :
    Instance.fromJson i.toJson = some i := rfl

/-- Round trip of one normalized peripheral, in both shapes. -/
theorem peripheral_roundtrip (p : Peripheral) :
    Peripheral.fromJson p.toJson = some p := by
  obtain ⟨n, d, addr, regs⟩ := p
  cases addr with
  | single a =>
    simp [Peripheral.fromJson, Peripheral.toJson, Json.get?, jlookup,
      Json.asStr, Json.asArr,
      decodeList_map Register.fromJson Register.toJson register_roundtrip]
  | multi l =>
    simp [Peripheral.fromJson, Peripheral.toJson, Json.get?, jlookup,
      Json.asStr, Json.asArr,
      decodeList_map Register.fromJson Register.toJson register_roundtrip,
      decodeList_map Instance.fromJson Instance.toJson instance_roundtrip]

/-- Claim C8: serializing the normalized model to the interchange document
and reading it back yields a model equal in every field. -/
theorem c8_roundtrip (ps : List Peripheral) :
    model_fromJson (model_toJson ps) = some ps := by
  simp [model_fromJson, model_toJson, Json.asArr,
    decodeList_map Peripheral.fromJson Peripheral.toJson
      peripheral_roundtrip]

/-! ## Claims C9 and C10

The reflow loop of `process_description` (lines 17-30): on the good
inputs (`goodDesc`) every iteration removes one newline together with
its indentation; when a newline is immediately followed by a non-space
character the splice `description[:begin] + description[end - 1:]`
rebuilds the very same string and the loop never terminates. -/

/-- A string without a newline has no first newline. -/
theorem find_newline_of_not_mem (s : List Char) (h : '\n' ∉ s) :
    find_newline s = none := by
  induction s with
  | nil => rfl
  | cons c rest ih =>
    have hc : ¬ c = '\n' := fun hh => h (hh ▸ List.mem_cons_self c rest)
    have hr : '\n' ∉ rest := fun hh => h (List.mem_cons_of_mem c hh)
    simp only [find_newline, if_neg hc, ih hr, Option.map_none']

/-- The first newline of `p ++ '\n' :: r` sits at `p.length` when `p`
has none. -/
theorem find_newline_append (p : List Char) (r : List Char)
    (hp : '\n' ∉ p) : find_newline (p ++ '\n' :: r) = some p.length := by
  induction p with
  | nil => simp [find_newline]
  | cons c p' ih =>
    have hc : ¬ c = '\n' := fun hh => hp (hh ▸ List.mem_cons_self c p')
    have hp' : '\n' ∉ p' := fun hh => hp (List.mem_cons_of_mem c hh)
    simp only [List.cons_append, find_newline, if_neg hc, List.length_cons]
    have ih' : find_newline (p'.append ('\n' :: r)) = some p'.length := ih hp'
    rw [ih']
    rfl

/-- First non-space of `replicate k ' ' ++ c :: q` is at `k`. -/
theorem findIdx_nonspace_replicate (k : Nat) (c : Char) (q : List Char)
    (hc : c ≠ ' ') :
    findIdx_nonspace (List.replicate k ' ' ++ c :: q) = some k := by
  induction k with
  | zero => simp [findIdx_nonspace, hc]
  | succ k' ih =>
    simp [List.replicate_succ, findIdx_nonspace, ih]

/-- Dropping the spaces of `replicate k ' ' ++ c :: q` leaves
`c :: q`. -/
theorem dropWhile_replicate (k : Nat) (c : Char) (q : List Char)
    (hc : c ≠ ' ') :
    (List.replicate k ' ' ++ c :: q).dropWhile (fun x => x = ' ') =
      c :: q := by
  induction k with
  | zero => simp [List.dropWhile_cons, hc]
  | succ k' ih =>
    simp [List.replicate_succ, List.dropWhile_cons, ih]

/-- A list whose space-prefix drop is non-empty splits as spaces, a
non-space character, and a tail. -/
theorem dropWhile_nonempty_split (r : List Char)
    (h : r.dropWhile (fun x => x = ' ') ≠ []) :
    ∃ k c q, r = List.replicate k ' ' ++ c :: q ∧ c ≠ ' ' ∧
      r.dropWhile (fun x => x = ' ') = c :: q := by
  induction r with
  | nil => exact absurd rfl h
  | cons a r' ih =>
    by_cases ha : a = ' '
    · subst ha
      have hd : (' ' :: r').dropWhile (fun x => x = ' ') =
          r'.dropWhile (fun x => x = ' ') := by
        simp [List.dropWhile_cons]
      rw [hd] at h
      obtain ⟨k, c, q, hr, hc, hq⟩ := ih h
      exact ⟨k + 1, c, q, by simp [List.replicate_succ, hr], hc,
        by rw [hd, hq]⟩
    · refine ⟨0, a, r', by simp, ha, ?_⟩
      simp [List.dropWhile_cons, ha]

/-- Every string containing a newline splits at its first newline. -/
theorem first_newline_split (s : List Char) (h : '\n' ∈ s) :
    ∃ p r, s = p ++ '\n' :: r ∧ '\n' ∉ p := by
  induction s with
  | nil => exact absurd h (by simp)
  | cons c rest ih =>
    by_cases hc : c = '\n'
    · exact ⟨[], rest, by rw [hc]; rfl, by simp⟩
    · have hr : '\n' ∈ rest := by
        rcases List.mem_cons.1 h with h1 | h1
        · exact absurd h1.symm hc
        · exact h1
      obtain ⟨p, r, hs, hp⟩ := ih hr
      exact ⟨c :: p, r, by rw [hs]; rfl, by
        simp only [List.mem_cons, not_or]
        exact ⟨fun hh => hc hh.symm, hp⟩⟩

/-- `goodDesc` ignores a newline-free prefix. -/
theorem goodDesc_append (u t : List Char) (hu : '\n' ∉ u) :
    goodDesc (u ++ t) = goodDesc t := by
  induction u with
  | nil => rfl
  | cons c u' ih =>
    have hc : ¬ c = '\n' := fun hh => hu (hh ▸ List.mem_cons_self c u')
    have hu' : '\n' ∉ u' := fun hh => hu (List.mem_cons_of_mem c hh)
    rw [List.cons_append, goodDesc, if_neg hc]
    exact ih hu'

/-- `collapse_spec` copies a newline-free prefix. -/
theorem collapse_spec_append (u t : List Char) (hu : '\n' ∉ u) :
    collapse_spec (u ++ t) = u ++ collapse_spec t := by
  induction u with
  | nil => rfl
  | cons c u' ih =>
    have hc : ¬ c = '\n' := fun hh => hu (hh ▸ List.mem_cons_self c u')
    have hu' : '\n' ∉ u' := fun hh => hu (List.mem_cons_of_mem c hh)
    rw [List.cons_append, collapse_spec, if_neg hc, ih hu',
      List.cons_append]

/-- `collapse_spec` leaves a newline-free string unchanged. -/
theorem collapse_spec_of_not_mem (s : List Char) (h : '\n' ∉ s) :
    collapse_spec s = s := by
  have := collapse_spec_append s [] h
  simpa [collapse_spec] using this

/-- Unfolding `goodDesc` at a leading newline. -/
theorem goodDesc_newline_cons (r : List Char) :
    goodDesc ('\n' :: r) =
      (if r.head? = some ' ' then
        !(r.dropWhile (fun x => x = ' ')).isEmpty &&
          goodDesc (r.dropWhile (fun x => x = ' '))
      else false) := by
  rw [goodDesc]
  rw [if_pos rfl]

/-- Unfolding `collapse_spec` at a leading newline. -/
theorem collapse_spec_newline_cons (r : List Char) :
    collapse_spec ('\n' :: r) =
      ' ' :: collapse_spec (r.dropWhile (fun x => x = ' ')) := by
  rw [collapse_spec]
  rw [if_pos rfl]

/-- One good iteration: the first newline, followed by `k + 1` spaces
and then a non-space, is spliced into a single space (the splice keeps
`description[end - 1]`, the last indentation space). -/
theorem descStep_good (p : List Char) (k : Nat) (c : Char) (q : List Char)
    (hp : '\n' ∉ p) (hc : c ≠ ' ') :
    descStep (p ++ '\n' :: (List.replicate (k + 1) ' ' ++ c :: q)) =
      some (p ++ ' ' :: c :: q) := by
  have hfind := find_newline_append p (List.replicate (k + 1) ' ' ++ c :: q) hp
  have hdrop1 :
      (p ++ '\n' :: (List.replicate (k + 1) ' ' ++ c :: q)).drop
        (p.length + 1) = List.replicate (k + 1) ' ' ++ c :: q := by
    have h1 : p ++ '\n' :: (List.replicate (k + 1) ' ' ++ c :: q) =
        (p ++ ['\n']) ++ (List.replicate (k + 1) ' ' ++ c :: q) := by simp
    have h2 : (p ++ ['\n']).length = p.length + 1 := by simp
    rw [h1, ← h2, List.drop_left]
  have hscan :
      scan_end (p ++ '\n' :: (List.replicate (k + 1) ' ' ++ c :: q))
        p.length = p.length + 1 + (k + 1) := by
    unfold scan_end
    rw [hdrop1, findIdx_nonspace_replicate (k + 1) c q hc]
  have htake :
      (p ++ '\n' :: (List.replicate (k + 1) ' ' ++ c :: q)).take p.length =
        p := List.take_left p _
  have hdrop2 :
      (p ++ '\n' :: (List.replicate (k + 1) ' ' ++ c :: q)).drop
        (p.length + k + 1) = ' ' :: c :: q := by
    have h3 : p ++ '\n' :: (List.replicate (k + 1) ' ' ++ c :: q) =
        (p ++ '\n' :: List.replicate k ' ') ++ (' ' :: c :: q) := by
      rw [List.replicate_succ']
      simp
    have h4 : (p ++ '\n' :: List.replicate k ' ').length =
        p.length + k + 1 := by
      rw [List.length_append, List.length_cons, List.length_replicate]
      omega
    rw [h3, ← h4, List.drop_left]
  simp only [descStep, hfind, hscan, htake]
  have h5 : ((p.length + 1 + (k + 1) : Nat) : Int) - 1 =
      ((p.length + k + 1 : Nat) : Int) := by push_cast; ring
  rw [h5]
  unfold pySliceFrom
  rw [if_pos (Int.natCast_nonneg _), Int.toNat_natCast, hdrop2]

/-- A good string containing a newline splits as a newline-free prefix,
the newline, its indentation, and a good remainder. -/
theorem goodDesc_decomp (s : List Char) (hg : goodDesc s = true)
    (hmem : '\n' ∈ s) :
    ∃ p k c q,
      s = p ++ '\n' :: (List.replicate (k + 1) ' ' ++ c :: q) ∧
      '\n' ∉ p ∧ c ≠ ' ' ∧ goodDesc (c :: q) = true := by
  obtain ⟨p, r, hs, hp⟩ := first_newline_split s hmem
  subst hs
  rw [goodDesc_append p _ hp, goodDesc_newline_cons] at hg
  by_cases hh : r.head? = some ' '
  · rw [if_pos hh, Bool.and_eq_true] at hg
    obtain ⟨hne, hgd⟩ := hg
    have hne' : r.dropWhile (fun x => x = ' ') ≠ [] := by
      intro h0
      rw [h0] at hne
      simp at hne
    obtain ⟨k, c, q, hr, hc, hdw⟩ := dropWhile_nonempty_split r hne'
    rw [hdw] at hgd
    cases k with
    | zero =>
      rw [hr] at hh
      simp only [List.replicate_zero, List.nil_append, List.head?_cons,
        Option.some.injEq] at hh
      exact absurd hh hc
    | succ k' =>
      exact ⟨p, k', c, q, by rw [hr], hp, hc, hgd⟩
  · rw [if_neg hh] at hg
    exact absurd hg (by simp)

/-- The loop result after one successful splice. -/
theorem process_description_succ_step (f : Nat) (s t : List Char)
    (h : descStep s = some t) :
    process_description (f + 1) s = process_description f t := by
  rw [process_description.eq_def, h]

/-- The loop returns immediately when there is no newline. -/
theorem process_description_of_none (fuel : Nat) (s : List Char)
    (h : descStep s = none) : process_description fuel s = some s := by
  rw [process_description.eq_def, h]

/-- With no fuel left, a splicing step reports divergence. -/
theorem process_description_zero_step (s t : List Char)
    (h : descStep s = some t) : process_description 0 s = none := by
  rw [process_description.eq_def, h]

/-- On good inputs the loop terminates (the length bounds the number of
iterations) and computes the spec's collapse. -/
theorem process_description_good : ∀ (fuel : Nat) (s : List Char),
    goodDesc s = true → s.length ≤ fuel →
    process_description fuel s = some (collapse_spec s) := by
  intro fuel
  induction fuel with
  | zero =>
    intro s hg hlen
    have hs : s = [] := List.eq_nil_of_length_eq_zero (Nat.le_zero.1 hlen)
    subst hs
    rw [process_description_of_none 0 [] rfl]
    rw [show collapse_spec ([] : List Char) = [] from by rw [collapse_spec]]
  | succ f ih =>
    intro s hg hlen
    by_cases hmem : '\n' ∈ s
    · obtain ⟨p, k, c, q, hs, hp, hc, hgq⟩ := goodDesc_decomp s hg hmem
      subst hs
      have hstep := descStep_good p k c q hp hc
      rw [process_description_succ_step f _ _ hstep]
      have hp2 : '\n' ∉ p ++ [' '] := by
        simp only [List.mem_append, List.mem_singleton, not_or]
        exact ⟨hp, by decide⟩
      have hassoc : p ++ ' ' :: c :: q = (p ++ [' ']) ++ c :: q := by simp
      have hgood2 : goodDesc (p ++ ' ' :: c :: q) = true := by
        rw [hassoc, goodDesc_append _ _ hp2]
        exact hgq
      have hlen2 : (p ++ ' ' :: c :: q).length ≤ f := by
        simp only [List.length_append, List.length_cons,
          List.length_replicate] at hlen ⊢
        omega
      rw [ih _ hgood2 hlen2]
      congr 1
      have e1 : collapse_spec (p ++ ' ' :: c :: q) =
          p ++ ' ' :: collapse_spec (c :: q) := by
        rw [hassoc, collapse_spec_append _ _ hp2]
        simp
      have e2 :
          collapse_spec (p ++ '\n' :: (List.replicate (k + 1) ' ' ++ c :: q)) =
            p ++ ' ' :: collapse_spec (c :: q) := by
        rw [collapse_spec_append _ _ hp, collapse_spec_newline_cons,
          dropWhile_replicate (k + 1) c q hc]
      rw [e1, e2]
    · have hnone : descStep s = none := by
        unfold descStep
        rw [find_newline_of_not_mem s hmem]
      rw [process_description_of_none _ _ hnone,
        collapse_spec_of_not_mem s hmem]

/-- A string the splice maps to itself keeps the loop running forever. -/
theorem diverges_of_fixed (s : List Char) (h : descStep s = some s) :
    diverges s := by
  intro fuel
  induction fuel with
  | zero => exact process_description_zero_step s s h
  | succ f ih =>
    rw [process_description_succ_step f s s h]
    exact ih

/-- Claim C9 counterexample: on "X\nY" — a line break immediately followed by
a non-space — the splice rebuilds the same string, the loop never
returns, while the spec's collapse would give "X Y". -/
theorem c9_counterexample :
    diverges ['X', '\n', 'Y'] ∧
    collapse_spec ['X', '\n', 'Y'] = ['X', ' ', 'Y'] := by
  refine ⟨diverges_of_fixed _ rfl, ?_⟩
  rw [collapse_spec]
  rw [if_neg (by decide), collapse_spec_newline_cons]
  rw [show (['Y'].dropWhile (fun x => x = ' ')) = ['Y'] from by decide]
  rw [collapse_spec]
  rw [if_neg (by decide)]
  rw [show collapse_spec ([] : List Char) = [] from by rw [collapse_spec]]

/-- Claim C9 (amended): on every string in which each line break is followed
by at least one space and, later, by some non-space character, the
reflow returns (length many iterations suffice) and collapses each line
break plus its leading indentation into a single space, leaving the
rest unchanged. -/
theorem c9_reflow (s : List Char) (h : goodDesc s = true) :
    process_description s.length s = some (collapse_spec s) :=
  process_description_good s.length s h (Nat.le_refl _)

/-- Claim C9 witness: the amended statement on "A\n  b". -/
theorem c9_reflow_witness :
    process_description (['A', '\n', ' ', ' ', 'b'].length)
        ['A', '\n', ' ', ' ', 'b'] =
      some (collapse_spec ['A', '\n', ' ', ' ', 'b']) :=
  c9_reflow ['A', '\n', ' ', ' ', 'b']
    (by simp [goodDesc, List.dropWhile_cons])

/-- Claim C10: the reflow loop does not terminate on "A\nB", a string whose
line break is immediately followed by a non-space character: there
`end = begin + 1`, the splice `description[:begin] +
description[end - 1:]` rebuilds the same string, and the loop runs
forever. -/
theorem c10_divergence : diverges ['A', '\n', 'B'] :=
  diverges_of_fixed _ rfl

end Svd
